import Mathlib

/-!
Verification of the std-crawler-api repository (src/app.py, src/std_crawler.py)
against its natural-language specification, via a shallow embedding in Lean 4.

Records (Python dicts of string keys and string values) are modelled as
insertion-ordered association lists with Python dict-assignment semantics.
Effectful browser interactions are modelled by explicit oracles (functions
describing what each navigation / extraction step yields), and Python
exceptions are modelled as explicit outcome values; a Python function that
catches every exception and returns a value is embedded as a total Lean
function.
-/

namespace StdCrawler

/-- A Python dict with string keys and values, keeping insertion order. -/
abbrev Rec := List (String × String)

/-- `d[k] = v` on a Python dict (string keys, values of any one type):
replace the value at the first occurrence of the key, or append the binding
at the end if the key is absent. -/
def assocSet {α : Type} : List (String × α) → String → α → List (String × α)
  | [], k, v => [(k, v)]
  | (k', v') :: rest, k, v =>
    if k' = k then (k, v) :: rest else (k', v') :: assocSet rest k v

/-- `d[k] = v` on a Python dict of strings. -/
def dictSet (d : Rec) (k v : String) : Rec :=
  assocSet d k v

/-- `d.update(e)`: apply `dictSet` for each binding of `e` in order. -/
def dictUpdate (d : Rec) (e : Rec) : Rec :=
  e.foldl (fun acc kv => dictSet acc kv.1 kv.2) d

/-- `d.get(k)`: first binding of the key, if any. -/
def dictGet (d : Rec) (k : String) : Option String :=
  d.lookup k

/-- `d.keys()` (with multiplicity; dicts built via `dictSet` have no duplicate
keys, but no theorem below needs that invariant). -/
def recKeys (d : Rec) : List String :=
  d.map Prod.fst

/-! ## Detail Enrichment Engine: `StdCrawler.get_detail` (std_crawler.py:222-299)

One iteration of the `for attempt in range(retry_count + 1)` loop either
raises an exception that reaches the outer `except Exception` handler, or
completes and merges into `detail` the key/value pairs its best-effort
extraction sub-steps produced.  The only statements in the attempt body that
are not wrapped in an inner `try`/`except` are `self.page.goto(...)` and
`asyncio.sleep(2)`, both of which precede every extraction, so an attempt
that raises merges nothing.  An oracle maps the attempt index to its
outcome. -/

/-- Outcome of one attempt of the `get_detail` retry loop. -/
inductive AttemptResult where
  | throws : AttemptResult
  | extracts : Rec → AttemptResult
deriving DecidableEq

/-- Whether an attempt outcome is an exception reaching the outer handler. -/
def AttemptResult.isThrow : AttemptResult → Bool
  | .throws => true
  | .extracts _ => false

/-- Observable result of `get_detail`: the returned mapping, the log of
backoff sleeps (`wait_time` values passed to `asyncio.sleep` in the
`except` branch, in order), and the number of attempts performed. -/
structure DetailOut where
  detail : Rec
  sleeps : List Nat
  attempts : Nat
deriving DecidableEq

/-- The retry loop of `get_detail`, starting at attempt index `a` with
`rem` loop iterations remaining, accumulated mapping `d` and backoff log
`s`.  Mirrors std_crawler.py:226-297: an attempt that completes merges its
extracted pairs; `if detail: break` stops as soon as the mapping is
non-empty; an attempt that raises sleeps `(attempt + 1) * 3` seconds when
`attempt < retry_count` and retries. -/
def getDetailGo (env : Nat → AttemptResult) (retry_count : Nat) :
    Nat → Nat → Rec → List Nat → DetailOut
  | _, 0, d, s => ⟨d, s, 0⟩
  | a, rem + 1, d, s =>
    match env a with
    | .extracts fields =>
      let d' := dictUpdate d fields
      if d'.isEmpty then
        let r := getDetailGo env retry_count (a + 1) rem d' s
        ⟨r.detail, r.sleeps, r.attempts + 1⟩
      else ⟨d', s, 1⟩
    | .throws =>
      let s' := if a < retry_count then s ++ [(a + 1) * 3] else s
      let r := getDetailGo env retry_count (a + 1) rem d s'
      ⟨r.detail, r.sleeps, r.attempts + 1⟩

/-- `get_detail(url, retry_count)`: run the loop over attempt indices
`0 .. retry_count`, starting from the empty mapping (`detail = {}` is
initialised once, before the loop).  The function is total and returns a
mapping: the outer `except Exception` handler makes the Python function
return `detail` whatever the attempts do. -/
def get_detail (env : Nat → AttemptResult) (retry_count : Nat) : DetailOut :=
  getDetailGo env retry_count 0 (retry_count + 1) [] []

theorem getDetailGo_attempts_le (env : Nat → AttemptResult) (r : Nat) :
    ∀ rem a d s, (getDetailGo env r a rem d s).attempts ≤ rem := by
  intro rem
  induction rem with
  | zero => intro a d s; simp [getDetailGo]
  | succ n ih =>
    intro a d s
    cases h : env a with
    | extracts fields =>
      simp only [getDetailGo, h]
      by_cases he : (dictUpdate d fields).isEmpty
      · rw [if_pos he]
        exact Nat.succ_le_succ (ih (a + 1) (dictUpdate d fields) s)
      · rw [if_neg he]
        dsimp only
        omega
    | throws =>
      simp only [getDetailGo, h]
      exact Nat.succ_le_succ (ih (a + 1) d _)

theorem getDetailGo_detail_of_all_throw (env : Nat → AttemptResult) (r : Nat)
    (hall : ∀ x, (env x).isThrow = true) :
    ∀ rem a d s, (getDetailGo env r a rem d s).detail = d := by
  intro rem
  induction rem with
  | zero => intro a d s; simp [getDetailGo]
  | succ n ih =>
    intro a d s
    cases h : env a with
    | extracts fields =>
      have := hall a
      rw [h] at this
      simp [AttemptResult.isThrow] at this
    | throws =>
      simp only [getDetailGo, h]
      exact ih (a + 1) d _

/-- **C2.** `get_detail` performs at most `retry_count + 1` attempts, and it
always returns a mapping to its caller: when every attempt raises, the
returned mapping is the empty dict.  (That no exception propagates past
this boundary is captured by the embedding itself: the outer
`except Exception` handler of std_crawler.py:226-297 makes `get_detail` a
total function into `DetailOut`, not into an exceptional result type.) -/
theorem get_detail_total (env : Nat → AttemptResult) (retry_count : Nat) :
    (get_detail env retry_count).attempts ≤ retry_count + 1 ∧
      ((∀ a, (env a).isThrow = true) → (get_detail env retry_count).detail = []) := by
  constructor
  · exact getDetailGo_attempts_le env retry_count (retry_count + 1) 0 [] []
  · intro hall
    exact getDetailGo_detail_of_all_throw env retry_count hall (retry_count + 1) 0 [] []

/-- Witness for C2 at a concrete input: every attempt throws, budget 2. -/
theorem get_detail_total_witness :
    (get_detail (fun _ => AttemptResult.throws) 2).attempts ≤ 3 ∧
      (get_detail (fun _ => AttemptResult.throws) 2).detail = [] := by
  have h := get_detail_total (fun _ => AttemptResult.throws) 2
  exact ⟨h.1, h.2 (fun a => rfl)⟩

theorem getDetailGo_sleeps_spec (env : Nat → AttemptResult) (r : Nat) :
    ∀ rem a d s,
      (getDetailGo env r a rem d s).sleeps =
        s ++ ((List.range' a (getDetailGo env r a rem d s).attempts).filter
          (fun x => (env x).isThrow && decide (x < r))).map (fun x => (x + 1) * 3) := by
  intro rem
  induction rem with
  | zero => intro a d s; simp [getDetailGo]
  | succ n ih =>
    intro a d s
    cases h : env a with
    | extracts fields =>
      simp only [getDetailGo, h]
      by_cases he : (dictUpdate d fields).isEmpty
      · rw [if_pos he]
        rw [ih (a + 1) (dictUpdate d fields) s]
        have hrange : List.range' a ((getDetailGo env r (a + 1) n (dictUpdate d fields) s).attempts + 1) =
            a :: List.range' (a + 1) (getDetailGo env r (a + 1) n (dictUpdate d fields) s).attempts :=
          List.range'_succ a _ 1
        rw [hrange]
        simp [List.filter, h, AttemptResult.isThrow]
      · rw [if_neg he]
        have hrange : List.range' a 1 = [a] := rfl
        rw [hrange]
        simp [List.filter, h, AttemptResult.isThrow]
    | throws =>
      simp only [getDetailGo, h]
      by_cases hlt : a < r
      · rw [if_pos hlt]
        rw [ih (a + 1) d (s ++ [(a + 1) * 3])]
        rw [List.range'_succ a _ 1]
        simp [List.filter, h, AttemptResult.isThrow, hlt]
      · rw [if_neg hlt]
        rw [ih (a + 1) d s]
        rw [List.range'_succ a _ 1]
        simp [List.filter, h, AttemptResult.isThrow, hlt]

/-- **C3 (amended).** The backoff log of `get_detail` contains exactly one
entry, equal to `(a + 1) * 3`, for each performed attempt `a` that RAISED an
exception while attempts remained (`a < retry_count`), in attempt order.  In
particular an attempt that completes without raising but extracts no data
triggers no backoff wait: the `wait_time` sleep of std_crawler.py:294-297
sits in the `except` branch only. -/
theorem get_detail_backoff_on_throw (env : Nat → AttemptResult) (retry_count : Nat) :
    (get_detail env retry_count).sleeps =
      ((List.range (get_detail env retry_count).attempts).filter
        (fun a => (env a).isThrow && decide (a < retry_count))).map (fun a => (a + 1) * 3) := by
  have h := getDetailGo_sleeps_spec env retry_count (retry_count + 1) 0 [] []
  rw [List.range_eq_range']
  simpa [get_detail] using h

/-- **C3 (counterexample).** With `retry_count = 2` and a site where every
attempt completes normally but yields no data at all, `get_detail` performs
all three attempts (so after attempts 0 and 1, which yielded no data,
attempts remained) and yet its backoff log is empty: contrary to the claim,
no attempt-increasing backoff is waited between data-less attempts unless
the attempt raised an exception. -/
theorem get_detail_backoff_cex :
    (get_detail (fun _ => AttemptResult.extracts []) 2).attempts = 3 ∧
      (get_detail (fun _ => AttemptResult.extracts []) 2).sleeps = [] :=
  ⟨rfl, rfl⟩

/-! ## Pagination Engine: `StdCrawler.search` (std_crawler.py:91-132)

`search` treats the parsed records of a page opaquely (it only appends them
and tests emptiness), so the embedding is polymorphic in the record type.
The site's behaviour is an oracle mapping the 1-based page number to what
`_parse_search_results` yields on that page and what `_has_next_page`
reports there.  The second component of the result counts the pages parsed
(the iterations of the `for page_num in range(1, max_pages + 1)` loop that
reached `_parse_search_results`). -/

/-- What the site shows on one result page. -/
structure PageView (α : Type) where
  records : List α
  hasNext : Bool

/-- The page loop of `search` (std_crawler.py:111-129), at page `page_num`
with `rem` loop iterations remaining and accumulator `acc`:
parse the page; if it yields no records, stop; otherwise append; if no
next-page affordance or this was the last allowed page, stop; else advance. -/
def searchGo {α : Type} (site : Nat → PageView α) (max_pages : Nat) :
    Nat → Nat → List α → List α × Nat
  | _, 0, acc => (acc, 0)
  | page_num, rem + 1, acc =>
    let page_results := (site page_num).records
    if page_results.isEmpty then (acc, 1)
    else
      let acc' := acc ++ page_results
      if (site page_num).hasNext = false ∨ max_pages ≤ page_num then (acc', 1)
      else
        let r := searchGo site max_pages (page_num + 1) rem acc'
        (r.1, r.2 + 1)

/-- `search(keyword, max_pages, ...)` for one keyword: run the page loop
over `page_num = 1 .. max_pages` starting from `self.results = []`. -/
def search {α : Type} (site : Nat → PageView α) (max_pages : Nat) : List α × Nat :=
  searchGo site max_pages 1 max_pages []

/-- Concatenation of the records parsed on pages `k, k+1, ..., k+m-1`. -/
def pagesRecords {α : Type} (site : Nat → PageView α) (k m : Nat) : List α :=
  ((List.range' k m).map (fun q => (site q).records)).flatten

theorem searchGo_pages_le {α : Type} (site : Nat → PageView α) (m : Nat) :
    ∀ rem page acc, (searchGo site m page rem acc).2 ≤ rem := by
  intro rem
  induction rem with
  | zero => intro page acc; simp [searchGo]
  | succ n ih =>
    intro page acc
    simp only [searchGo]
    by_cases he : (site page).records.isEmpty
    · rw [if_pos he]; omega
    · rw [if_neg he]
      by_cases hs : (site page).hasNext = false ∨ m ≤ page
      · rw [if_pos hs]; omega
      · rw [if_neg hs]
        exact Nat.succ_le_succ (ih (page + 1) _)

/-- **C4.** The page loop of `search` is bounded: for every `max_pages` and
every site behaviour, at most `max_pages` pages are parsed, so the crawl of
one keyword terminates (the embedding of `search` is a total function). -/
theorem search_pages_bounded {α : Type} (site : Nat → PageView α) (max_pages : Nat) :
    (search site max_pages).2 ≤ max_pages :=
  searchGo_pages_le site max_pages max_pages 1 []

theorem searchGo_stops_on_empty {α : Type} (site : Nat → PageView α) (m p : Nat) :
    ∀ rem k acc, k + rem = m + 1 → k ≤ p → p ≤ m →
      (∀ q, k ≤ q → q < p → (site q).records ≠ [] ∧ (site q).hasNext = true) →
      (site p).records = [] →
      searchGo site m k rem acc = (acc ++ pagesRecords site k (p - k), p - k + 1) := by
  intro rem
  induction rem with
  | zero =>
    intro k acc hsum hkp hpm _ _
    omega
  | succ n ih =>
    intro k acc hsum hkp hpm hall hempty
    rcases Nat.eq_or_lt_of_le hkp with heq | hlt
    · subst heq
      simp only [searchGo]
      rw [if_pos (by simp [hempty])]
      simp [pagesRecords]
    · have hk := hall k (Nat.le_refl k) hlt
      simp only [searchGo]
      rw [if_neg (by simpa [List.isEmpty_iff] using hk.1)]
      rw [if_neg (by push_neg; exact ⟨by simp [hk.2], by omega⟩)]
      rw [ih (k + 1) (acc ++ (site k).records) (by omega) (by omega) hpm
        (fun q hq1 hq2 => hall q (by omega) hq2) hempty]
      have hsub : p - k = (p - (k + 1)) + 1 := by omega
      rw [hsub]
      simp only [pagesRecords, List.range'_succ, List.map_cons, List.flatten_cons]
      simp [List.append_assoc]

/-- **C5.** If the first `p - 1` pages each parse to at least one record and
report a next-page affordance, and page `p` (within the allowed budget)
parses to zero records, then `search` stops at page `p` immediately —
exactly `p` pages are parsed, no later page is fetched — and it returns the
already-accumulated records of pages `1 .. p - 1` rather than discarding
them.  Nothing is assumed about the next-page affordance of page `p`
itself: the stop happens even when it is reported present. -/
theorem search_stops_on_empty_page {α : Type} (site : Nat → PageView α)
    (max_pages p : Nat) (hp1 : 1 ≤ p) (hpm : p ≤ max_pages)
    (hprev : ∀ q, 1 ≤ q → q < p → (site q).records ≠ [] ∧ (site q).hasNext = true)
    (hempty : (site p).records = []) :
    search site max_pages = (pagesRecords site 1 (p - 1), p) := by
  have h := searchGo_stops_on_empty site max_pages p max_pages 1 []
    (by omega) hp1 hpm hprev hempty
  rw [search, h]
  simp
  omega

/-- A concrete site for the C5 witness: page 1 holds one record, page 2 is
empty while still reporting a next-page affordance, later pages non-empty. -/
def siteW : Nat → PageView Nat :=
  fun q => if q = 1 then ⟨[10], true⟩ else if q = 2 then ⟨[], true⟩ else ⟨[99], true⟩

/-- Witness for C5 at a concrete input: with a 3-page budget and `siteW`,
pagination stops at the empty page 2 (affordance present) with page 1's
record kept. -/
theorem search_stops_on_empty_page_witness :
    search siteW 3 = ([10], 2) := by
  have h := search_stops_on_empty_page siteW 3 2 (by omega) (by omega)
    (by
      intro q hq1 hq2
      have hq : q = 1 := by omega
      subst hq
      refine ⟨by simp [siteW], by simp [siteW]⟩)
    (by simp [siteW])
  rw [h]
  rfl

/-! ## Title parsing: `StdCrawler._parse_title` (std_crawler.py:194-200)

`re.sub(r'\s+', ' ', title)` replaces each maximal whitespace run by one
space, `.strip()` trims whitespace at both ends, and `.split(" ", 1)`
splits at the first occurrence of the space character, if any. -/

/-- The Python `\s` / `str.isspace` character class (the Unicode whitespace
code points matched by a `\s` pattern over `str`). -/
def pySpace (c : Char) : Bool :=
  (9 ≤ c.toNat && c.toNat ≤ 13) || c.toNat == 32 ||
  (28 ≤ c.toNat && c.toNat ≤ 31) || c.toNat == 0x85 || c.toNat == 0xa0 ||
  c.toNat == 0x1680 || (0x2000 ≤ c.toNat && c.toNat ≤ 0x200a) ||
  c.toNat == 0x2028 || c.toNat == 0x2029 || c.toNat == 0x202f ||
  c.toNat == 0x205f || c.toNat == 0x3000

/-- `re.sub(r'\s+', ' ', ·)` as a left-to-right scan: `prev` records whether
the previous character was part of a whitespace run (whose single `' '`
replacement has already been emitted). -/
def collapseGo : Bool → List Char → List Char
  | _, [] => []
  | prev, c :: cs =>
    if pySpace c then
      if prev then collapseGo true cs else ' ' :: collapseGo true cs
    else c :: collapseGo false cs

/-- Replace every maximal whitespace run by a single space. -/
def pyCollapseWS (l : List Char) : List Char :=
  collapseGo false l

/-- `str.strip()`: drop whitespace from both ends. -/
def pyStrip (l : List Char) : List Char :=
  ((l.dropWhile pySpace).reverse.dropWhile pySpace).reverse

/-- `s.split(" ", 1)`: split at the first space character, if any. -/
def pySplit1 (l : List Char) : List (List Char) :=
  if l.contains ' ' then
    [l.takeWhile (fun c => c != ' '), (l.dropWhile (fun c => c != ' ')).drop 1]
  else [l]

/-- `_parse_title(title)`: normalize, split once, and build the result dict
(std_crawler.py:194-200). -/
def _parse_title (title : String) : Rec :=
  let t := pyStrip (pyCollapseWS title.data)
  let parts := pySplit1 t
  if parts.length = 2 then
    [("std_code", String.mk (parts.getD 0 [])), ("std_name", String.mk (parts.getD 1 []))]
  else
    [("std_code", ""), ("std_name", String.mk t)]

/-- No two adjacent characters are both whitespace. -/
def noDoubleSpace : List Char → Bool
  | [] => true
  | [_] => true
  | c1 :: c2 :: rest => (!(pySpace c1 && pySpace c2)) && noDoubleSpace (c2 :: rest)

/-- A string is whitespace-normalized when its only whitespace character is
the plain space, no two adjacent characters are whitespace, and neither end
is whitespace. -/
def wsNormalized (l : List Char) : Bool :=
  l.all (fun c => !pySpace c || c == ' ') &&
  noDoubleSpace l &&
  (match l.head? with | some c => !pySpace c | none => true) &&
  (match l.getLast? with | some c => !pySpace c | none => true)

theorem collapseGo_all_blank (l : List Char) :
    ∀ prev, (collapseGo prev l).all (fun c => !pySpace c || c == ' ') = true := by
  induction l with
  | nil => intro prev; simp [collapseGo]
  | cons c cs ih =>
    intro prev
    by_cases hc : pySpace c = true
    · cases prev with
      | true =>
        rw [collapseGo, if_pos hc, if_pos rfl]
        exact ih true
      | false =>
        rw [collapseGo, if_pos hc, if_neg (by decide)]
        simp only [List.all_cons, Bool.and_eq_true]
        exact ⟨by decide, ih true⟩
    · rw [collapseGo, if_neg hc]
      simp only [List.all_cons, Bool.and_eq_true]
      have hc' : pySpace c = false := by simpa using hc
      exact ⟨by simp [hc'], ih false⟩

theorem collapseGo_true_head (l : List Char) :
    ∀ c, (collapseGo true l).head? = some c → pySpace c = false := by
  induction l with
  | nil => intro c h; simp [collapseGo] at h
  | cons a cs ih =>
    intro c h
    by_cases ha : pySpace a
    · rw [collapseGo, if_pos ha, if_pos rfl] at h
      exact ih c h
    · rw [collapseGo, if_neg ha] at h
      simp at h
      rw [← h]
      simpa using ha

theorem noDoubleSpace_cons_iff (c : Char) (l : List Char) :
    noDoubleSpace (c :: l) = true ↔
      ((match l.head? with
        | some b => !(pySpace c && pySpace b)
        | none => true) = true) ∧ noDoubleSpace l = true := by
  cases l with
  | nil => simp [noDoubleSpace]
  | cons b rest => simp [noDoubleSpace]

theorem collapseGo_noDouble (l : List Char) :
    ∀ prev, noDoubleSpace (collapseGo prev l) = true := by
  induction l with
  | nil => intro prev; simp [collapseGo, noDoubleSpace]
  | cons c cs ih =>
    intro prev
    by_cases hc : pySpace c = true
    · cases prev with
      | true =>
        rw [collapseGo, if_pos hc, if_pos rfl]
        exact ih true
      | false =>
        rw [collapseGo, if_pos hc, if_neg (by decide)]
        rw [noDoubleSpace_cons_iff]
        refine ⟨?_, ih true⟩
        cases hh : (collapseGo true cs).head? with
        | none => simp [hh]
        | some b =>
          have hb := collapseGo_true_head cs b hh
          simp [hh, hb]
    · rw [collapseGo, if_neg hc]
      rw [noDoubleSpace_cons_iff]
      refine ⟨?_, ih false⟩
      have hc' : pySpace c = false := by simpa using hc
      cases hh : (collapseGo false cs).head? with
      | none => simp [hh]
      | some b => simp [hh, hc']

theorem all_dropWhile_of_all (P q : Char → Bool) (l : List Char)
    (h : l.all P = true) : (l.dropWhile q).all P = true := by
  induction l with
  | nil => simp
  | cons a l' ih =>
    rw [List.all_cons, Bool.and_eq_true] at h
    rw [List.dropWhile_cons]
    by_cases hq : q a = true
    · rw [if_pos hq]
      exact ih h.2
    · rw [if_neg hq, List.all_cons, Bool.and_eq_true]
      exact h

theorem noDouble_tail (c : Char) (l : List Char)
    (h : noDoubleSpace (c :: l) = true) : noDoubleSpace l = true :=
  ((noDoubleSpace_cons_iff c l).mp h).2

theorem noDouble_dropWhile (q : Char → Bool) (l : List Char)
    (h : noDoubleSpace l = true) : noDoubleSpace (l.dropWhile q) = true := by
  induction l with
  | nil => simpa using h
  | cons a l' ih =>
    rw [List.dropWhile_cons]
    by_cases hq : q a = true
    · rw [if_pos hq]
      exact ih (noDouble_tail a l' h)
    · rw [if_neg hq]
      exact h

theorem noDouble_append_left :
    ∀ l1 l2 : List Char, noDoubleSpace (l1 ++ l2) = true → noDoubleSpace l1 = true := by
  intro l1
  induction l1 with
  | nil => intro l2 _; simp [noDoubleSpace]
  | cons a l1' ih =>
    intro l2 h
    rw [List.cons_append] at h
    rw [noDoubleSpace_cons_iff] at h ⊢
    refine ⟨?_, ih l2 h.2⟩
    cases l1' with
    | nil => simp
    | cons b rest =>
      exact h.1

theorem dropWhile_head_not (q : Char → Bool) (l : List Char) :
    ∀ c, (l.dropWhile q).head? = some c → q c = false := by
  induction l with
  | nil => intro c h; simp at h
  | cons a l' ih =>
    intro c h
    rw [List.dropWhile_cons] at h
    by_cases hq : q a = true
    · rw [if_pos hq] at h
      exact ih c h
    · rw [if_neg hq] at h
      simp at h
      rw [← h]
      simpa using hq

/-- Normalization as performed by `_parse_title` (collapse whitespace runs,
trim both ends) yields a whitespace-normalized string. -/
theorem wsNormalized_normalize (l : List Char) :
    wsNormalized (pyStrip (pyCollapseWS l)) = true := by
  have hdecomp : (pyCollapseWS l).dropWhile pySpace =
      (((pyCollapseWS l).dropWhile pySpace).reverse.dropWhile pySpace).reverse ++
        (((pyCollapseWS l).dropWhile pySpace).reverse.takeWhile pySpace).reverse := by
    have h1 : ((pyCollapseWS l).dropWhile pySpace).reverse.takeWhile pySpace ++
        ((pyCollapseWS l).dropWhile pySpace).reverse.dropWhile pySpace =
          ((pyCollapseWS l).dropWhile pySpace).reverse :=
      List.takeWhile_append_dropWhile pySpace _
    have h2 := congrArg List.reverse h1
    rw [List.reverse_append, List.reverse_reverse] at h2
    exact h2.symm
  have hall : (pyStrip (pyCollapseWS l)).all (fun c => !pySpace c || c == ' ') = true := by
    rw [pyStrip, List.all_reverse]
    apply all_dropWhile_of_all
    rw [List.all_reverse]
    apply all_dropWhile_of_all
    exact collapseGo_all_blank l false
  have hnd : noDoubleSpace (pyStrip (pyCollapseWS l)) = true := by
    have hm : noDoubleSpace ((pyCollapseWS l).dropWhile pySpace) = true :=
      noDouble_dropWhile pySpace _ (collapseGo_noDouble l false)
    rw [hdecomp] at hm
    exact noDouble_append_left _ _ hm
  have hhead : (match (pyStrip (pyCollapseWS l)).head? with
      | some c => !pySpace c
      | none => true) = true := by
    cases hh : (pyStrip (pyCollapseWS l)).head? with
    | none => simp
    | some c =>
      have hmhead : ((pyCollapseWS l).dropWhile pySpace).head? = some c := by
        rw [hdecomp]
        rw [pyStrip] at hh
        cases hX : (((pyCollapseWS l).dropWhile pySpace).reverse.dropWhile pySpace).reverse with
        | nil => rw [hX] at hh; simp at hh
        | cons a t =>
          rw [hX] at hh
          simp at hh
          simp [List.cons_append, hh]
      have := dropWhile_head_not pySpace (pyCollapseWS l) c hmhead
      simp [this]
  have hlast : (match (pyStrip (pyCollapseWS l)).getLast? with
      | some c => !pySpace c
      | none => true) = true := by
    cases hh : (pyStrip (pyCollapseWS l)).getLast? with
    | none => simp
    | some c =>
      rw [pyStrip, List.getLast?_reverse] at hh
      have := dropWhile_head_not pySpace ((pyCollapseWS l).dropWhile pySpace).reverse c hh
      simp [this]
  rw [wsNormalized]
  rw [Bool.and_eq_true, Bool.and_eq_true, Bool.and_eq_true]
  exact ⟨⟨⟨hall, hnd⟩, hhead⟩, hlast⟩

theorem takeWhile_all_self (q : Char → Bool) (l : List Char) :
    (l.takeWhile q).all q = true := by
  induction l with
  | nil => simp
  | cons a l' ih =>
    rw [List.takeWhile_cons]
    by_cases hq : q a = true
    · rw [if_pos hq]
      simp [hq, ih]
    · rw [if_neg hq]
      simp

theorem dropWhile_not_space_eq_cons (l : List Char) (h : l.contains ' ' = true) :
    ∃ t, l.dropWhile (fun c => c != ' ') = ' ' :: t := by
  induction l with
  | nil => simp at h
  | cons a l' ih =>
    by_cases ha : a = ' '
    · subst ha
      refine ⟨l', ?_⟩
      rw [List.dropWhile_cons, if_neg (by simp)]
    · have h' : l'.contains ' ' = true := by
        simp only [List.contains_cons, Bool.or_eq_true] at h
        rcases h with h1 | h1
        · have h2 : ' ' = a := by simpa using h1
          exact absurd h2.symm ha
        · exact h1
      obtain ⟨t, ht⟩ := ih h'
      refine ⟨t, ?_⟩
      rw [List.dropWhile_cons, if_pos (by simp [ha])]
      exact ht

/-- **C8.** For every raw title string, `_parse_title` first normalizes it
(the normalization collapses every whitespace run to a single plain space
and trims both ends: `wsNormalized` holds of its output) and then splits on
the FIRST whitespace boundary only: when the normalized string contains a
space, `std_code` is the space-free part before the first space and
`std_name` the remainder; when it contains no whitespace, `std_code` is the
empty string and `std_name` the whole normalized string. -/
theorem parse_title_first_split (title : String) :
    wsNormalized (pyStrip (pyCollapseWS title.data)) = true ∧
    (if (pyStrip (pyCollapseWS title.data)).contains ' ' = true then
      ∃ code name,
        _parse_title title = [("std_code", String.mk code), ("std_name", String.mk name)] ∧
        pyStrip (pyCollapseWS title.data) = code ++ ' ' :: name ∧
        code.all (fun c => c != ' ') = true
    else
      _parse_title title =
        [("std_code", ""), ("std_name", String.mk (pyStrip (pyCollapseWS title.data)))]) := by
  refine ⟨wsNormalized_normalize title.data, ?_⟩
  by_cases h : (pyStrip (pyCollapseWS title.data)).contains ' ' = true
  · rw [if_pos h]
    obtain ⟨t, ht⟩ := dropWhile_not_space_eq_cons _ h
    refine ⟨(pyStrip (pyCollapseWS title.data)).takeWhile (fun c => c != ' '), t, ?_, ?_, ?_⟩
    · rw [_parse_title]
      simp only [pySplit1]
      rw [if_pos h, ht]
      simp
    · conv_lhs => rw [← List.takeWhile_append_dropWhile (fun c => c != ' ')
        (pyStrip (pyCollapseWS title.data))]
      rw [ht]
    · exact takeWhile_all_self _ _
  · rw [if_neg h]
    rw [_parse_title]
    simp only [pySplit1]
    rw [if_neg h]
    simp

/-! ## Batch Coordinator: `StdCrawler.batch_search` (std_crawler.py:50-89)

The outcome of `self.search(keyword, ...)` per keyword and of
`self.get_detail(url)` per url are oracles.  `batch_search` additionally
returns a per-keyword log of the record indices on which detail enrichment
was attempted (the iterations of the `for j, result in
enumerate(results[:max_details])` loop that reached `get_detail`). -/

/-- Oracles for one `batch_search` run. -/
structure BatchEnv where
  searchFor : String → List Rec
  detailFor : String → Rec

/-- Python truthiness of `result.get("url")`: present and non-empty. -/
def hasUrl (r : Rec) : Bool :=
  match dictGet r "url" with
  | some s => !(s == "")
  | none => false

/-- The detail-enrichment pass over one keyword's results
(std_crawler.py:67-77): `result.update(detail)` mutates, in place, each of
the first `max_details = min(len(results), 20)` records that has a truthy
url. -/
def enrichResults (env : BatchEnv) (results : List Rec) : List Rec :=
  results.mapIdx (fun j r =>
    if decide (j < min results.length 20) && hasUrl r then
      dictUpdate r (env.detailFor ((dictGet r "url").getD ""))
    else r)

/-- The indices on which the enrichment pass calls `get_detail`. -/
def enrichedIdx (results : List Rec) : List Nat :=
  (List.range (min results.length 20)).filter (fun j => hasUrl (results.getD j []))

/-- The keyword loop of `batch_search` (std_crawler.py:58-85): search, then
optionally enrich, then tag every record of this keyword with
`search_keyword`, then append to the aggregate. -/
def batchGo (env : BatchEnv) (get_details : Bool) :
    List String → List Rec × List (String × List Nat)
  | [] => ([], [])
  | kw :: rest =>
    let results := env.searchFor kw
    let enriched :=
      if get_details && !results.isEmpty then enrichResults env results else results
    let tagged := enriched.map (fun r => dictSet r "search_keyword" kw)
    let r := batchGo env get_details rest
    (tagged ++ r.1,
      (kw, if get_details && !results.isEmpty then enrichedIdx results else []) :: r.2)

/-- `batch_search(keywords, ..., get_details)`: aggregate results plus the
per-keyword enrichment-attempt log. -/
def batch_search (env : BatchEnv) (keywords : List String) (get_details : Bool) :
    List Rec × List (String × List Nat) :=
  batchGo env get_details keywords

theorem enrichedIdx_length_le (results : List Rec) :
    (enrichedIdx results).length ≤ min results.length 20 := by
  calc (enrichedIdx results).length
      ≤ (List.range (min results.length 20)).length := List.length_filter_le _ _
    _ = min results.length 20 := List.length_range _

theorem enrichedIdx_sorted (results : List Rec) :
    List.Sorted (· < ·) (enrichedIdx results) :=
  (List.sorted_lt_range _).sublist (List.filter_sublist _)

theorem enrichedIdx_mem_lt (results : List Rec) (j : Nat) (h : j ∈ enrichedIdx results) :
    j < min results.length 20 :=
  List.mem_range.mp (List.mem_filter.mp h).1

/-- **C9.** In a batch run, every entry of the enrichment-attempt log is a
strictly increasing list of indices into the keyword's result sequence,
each below `min(len(results), 20)`, and of length at most
`min(len(results), 20)`: enrichment is attempted on at most the first
`min(len(results), 20)` records, in order, even when more are available. -/
theorem batch_search_enrich_cap (env : BatchEnv) (keywords : List String) (gd : Bool) :
    ∀ p ∈ (batch_search env keywords gd).2,
      p.2.length ≤ min (env.searchFor p.1).length 20 ∧
      List.Sorted (· < ·) p.2 ∧
      ∀ j ∈ p.2, j < min (env.searchFor p.1).length 20 := by
  induction keywords with
  | nil => intro p hp; simp [batch_search, batchGo] at hp
  | cons kw rest ih =>
    intro p hp
    simp only [batch_search, batchGo, List.mem_cons] at hp
    rcases hp with hp | hp
    · subst hp
      by_cases hgd : (gd && !(env.searchFor kw).isEmpty) = true
      · rw [if_pos hgd]
        exact ⟨enrichedIdx_length_le _, enrichedIdx_sorted _,
          fun j hj => enrichedIdx_mem_lt _ j hj⟩
      · rw [if_neg hgd]
        refine ⟨by simp, by simp, ?_⟩
        intro j hj
        simp at hj
    · exact ih p hp

/-- Oracles for the C9 witness: 25 identical records with a url per
keyword. -/
def envW : BatchEnv :=
  ⟨fun _ => List.replicate 25 [("url", "u")], fun _ => [("cn_title", "t")]⟩

/-- Witness for C9 at a concrete input: one keyword yielding 25 records,
enrichment attempted exactly on indices 0..19. -/
theorem batch_search_enrich_cap_witness :
    (List.range 20).length ≤ min (envW.searchFor "kw").length 20 ∧
      List.Sorted (· < ·) (List.range 20) := by
  have h := batch_search_enrich_cap envW ["kw"] true ("kw", List.range 20) (by decide)
  exact ⟨h.1, h.2.1⟩

/-! ## Task Lifecycle Manager: src/app.py

Task identities are produced by `datetime.now().strftime("%Y%m%d_%H%M%S")`
(app.py:87 and app.py:121): the wall-clock instant formatted at SECOND
resolution, with zero-padded fixed-width fields.  The submission time is an
explicit parameter of the embedded submission handlers. -/

/-- A wall-clock instant at second resolution (what `%Y%m%d_%H%M%S` can
observe of `datetime.now()`). -/
structure DateTime where
  year : Nat
  month : Nat
  day : Nat
  hour : Nat
  minute : Nat
  second : Nat
deriving DecidableEq

/-- Field ranges of a `datetime.now()` value (year is 4 digits). -/
def DateTime.Valid (t : DateTime) : Prop :=
  1000 ≤ t.year ∧ t.year ≤ 9999 ∧ 1 ≤ t.month ∧ t.month ≤ 12 ∧
  1 ≤ t.day ∧ t.day ≤ 31 ∧ t.hour ≤ 23 ∧ t.minute ≤ 59 ∧ t.second ≤ 59

/-- Two-digit zero-padded decimal rendering (strftime `%m`/`%d`/`%H`/`%M`/`%S`
on in-range values). -/
def pad2 (n : Nat) : List Char :=
  [Nat.digitChar (n / 10), Nat.digitChar (n % 10)]

/-- Four-digit zero-padded decimal rendering (strftime `%Y` on 4-digit
years). -/
def pad4 (n : Nat) : List Char :=
  [Nat.digitChar (n / 1000), Nat.digitChar (n / 100 % 10),
   Nat.digitChar (n / 10 % 10), Nat.digitChar (n % 10)]

/-- `datetime.strftime("%Y%m%d_%H%M%S")`. -/
def strftimeId (t : DateTime) : String :=
  String.mk (pad4 t.year ++ pad2 t.month ++ pad2 t.day ++ ['_'] ++
    pad2 t.hour ++ pad2 t.minute ++ pad2 t.second)

theorem digitChar_inj_lt (a b : Nat) (ha : a < 10) (hb : b < 10)
    (h : Nat.digitChar a = Nat.digitChar b) : a = b := by
  interval_cases a <;> interval_cases b <;> revert h <;> decide

theorem pad2_inj (m n : Nat) (hm : m < 100) (hn : n < 100) (h : pad2 m = pad2 n) :
    m = n := by
  simp only [pad2, List.cons.injEq, and_true] at h
  have h1 := digitChar_inj_lt (m / 10) (n / 10) (by omega) (by omega) h.1
  have h2 := digitChar_inj_lt (m % 10) (n % 10) (by omega) (by omega) h.2
  omega

theorem pad4_inj (m n : Nat) (hm : m < 10000) (hn : n < 10000) (h : pad4 m = pad4 n) :
    m = n := by
  simp only [pad4, List.cons.injEq, and_true] at h
  have h1 := digitChar_inj_lt (m / 1000) (n / 1000) (by omega) (by omega) h.1
  have h2 := digitChar_inj_lt (m / 100 % 10) (n / 100 % 10) (by omega) (by omega) h.2.1
  have h3 := digitChar_inj_lt (m / 10 % 10) (n / 10 % 10) (by omega) (by omega) h.2.2.1
  have h4 := digitChar_inj_lt (m % 10) (n % 10) (by omega) (by omega) h.2.2.2
  omega

theorem pad2_length (n : Nat) : (pad2 n).length = 2 := rfl

theorem pad4_length (n : Nat) : (pad4 n).length = 4 := rfl

/-- On valid (second-resolution) instants, the task-identity format is
injective: distinct instants give distinct identities. -/
theorem strftimeId_inj (t1 t2 : DateTime) (h1 : t1.Valid) (h2 : t2.Valid)
    (h : strftimeId t1 = strftimeId t2) : t1 = t2 := by
  obtain ⟨y1, mo1, d1, hh1, mi1, s1⟩ := t1
  obtain ⟨y2, mo2, d2, hh2, mi2, s2⟩ := t2
  simp only [DateTime.Valid] at h1 h2
  obtain ⟨ha1, ha2, ha3, ha4, ha5, ha6, ha7, ha8, ha9⟩ := h1
  obtain ⟨hb1, hb2, hb3, hb4, hb5, hb6, hb7, hb8, hb9⟩ := h2
  simp only [DateTime.mk.injEq]
  have hdata : pad4 y1 ++ pad2 mo1 ++ pad2 d1 ++ ['_'] ++ pad2 hh1 ++ pad2 mi1 ++ pad2 s1 =
      pad4 y2 ++ pad2 mo2 ++ pad2 d2 ++ ['_'] ++ pad2 hh2 ++ pad2 mi2 ++ pad2 s2 :=
    congrArg String.data h
  rw [List.append_assoc, List.append_assoc, List.append_assoc, List.append_assoc,
    List.append_assoc, List.append_assoc, List.append_assoc, List.append_assoc,
    List.append_assoc, List.append_assoc] at hdata
  obtain ⟨e1, hdata⟩ := List.append_inj hdata (by rw [pad4_length, pad4_length])
  obtain ⟨e2, hdata⟩ := List.append_inj hdata (by rw [pad2_length, pad2_length])
  obtain ⟨e3, hdata⟩ := List.append_inj hdata (by rw [pad2_length, pad2_length])
  obtain ⟨_, hdata⟩ := List.append_inj hdata (rfl)
  obtain ⟨e4, hdata⟩ := List.append_inj hdata (by rw [pad2_length, pad2_length])
  obtain ⟨e5, e6⟩ := List.append_inj hdata (by rw [pad2_length, pad2_length])
  exact ⟨pad4_inj _ _ (by omega) (by omega) e1, pad2_inj _ _ (by omega) (by omega) e2,
    pad2_inj _ _ (by omega) (by omega) e3, pad2_inj _ _ (by omega) (by omega) e4,
    pad2_inj _ _ (by omega) (by omega) e5, pad2_inj _ _ (by omega) (by omega) e6⟩

/-- One entry of the `tasks_status` registry (app.py:89-99, 127-137,
156-195).  `file` is the optional output-file reference set on success. -/
structure Task where
  status : String
  progress : Nat
  message : String
  keyword : String
  keywords : List String
  results : List Rec
  total : Nat
  created_at : DateTime
  get_details : Bool
  file : Option String
deriving DecidableEq

/-- The in-memory task registry `tasks_status` (a Python dict). -/
abbrev Registry := List (String × Task)

/-- The registry entry created by `start_search` (app.py:89-99). -/
def initSearchTask (keyword : String) (gd : Bool) (now : DateTime) : Task :=
  { status := "running", progress := 0, message := "正在启动爬虫...",
    keyword := keyword, keywords := [keyword], results := [], total := 0,
    created_at := now, get_details := gd, file := none }

/-- `", ".join(keywords[:3])` plus the `等N个` suffix when more than three
keywords were submitted (app.py:123-125). -/
def keywordsStr (keywords : List String) : String :=
  let s := String.intercalate ", " (keywords.take 3)
  if 3 < keywords.length then s ++ " 等" ++ toString keywords.length ++ "个" else s

/-- The registry entry created by `start_batch_search` (app.py:127-137). -/
def initBatchTask (keywords : List String) (gd : Bool) (now : DateTime) : Task :=
  { status := "running", progress := 0, message := "正在批量搜索: " ++ keywordsStr keywords,
    keyword := keywordsStr keywords, keywords := keywords, results := [], total := 0,
    created_at := now, get_details := gd, file := none }

/-- `POST /api/search` (app.py:84-115): derive the task identity from the
submission instant, insert the fresh entry into the registry (Python dict
assignment: an existing entry under the same key is overwritten), return
the new registry and the task identity. -/
def start_search (reg : Registry) (keyword : String) (gd : Bool) (now : DateTime) :
    Registry × String :=
  let task_id := strftimeId now
  (assocSet reg task_id (initSearchTask keyword gd now), task_id)

/-- `POST /api/batch-search` (app.py:118-153). -/
def start_batch_search (reg : Registry) (keywords : List String) (gd : Bool)
    (now : DateTime) : Registry × String :=
  let task_id := strftimeId now
  (assocSet reg task_id (initBatchTask keywords gd now), task_id)

/-- A fixed instant used by concrete counterexamples and witnesses. -/
def t0 : DateTime := ⟨2024, 5, 6, 7, 8, 9⟩

/-- A second fixed instant, one second after `t0`. -/
def t1 : DateTime := ⟨2024, 5, 6, 7, 8, 10⟩

/-- **C1 (counterexample).** Two distinct submissions (different keywords)
whose `datetime.now()` falls in the same second receive the SAME task
identity, and the registry after both submissions holds a single entry: the
second submission overwrote the first one's registry entry, contrary to the
claim that task identities are unique per submission. -/
theorem task_id_collision :
    (start_search [] "keywordA" false t0).2 =
        (start_search (start_search [] "keywordA" false t0).1 "keywordB" false t0).2 ∧
      (start_search (start_search [] "keywordA" false t0).1 "keywordB" false t0).1 =
        [("20240506_070809", initSearchTask "keywordB" false t0)] :=
  ⟨rfl, rfl⟩

/-- **C1 (amended).** Task identities are unique only per submission
SECOND: two submissions whose (valid) creation instants differ at second
resolution receive distinct identities, and after both submissions each
one's registry entry is present, unharmed by the other; two submissions
within the same second collide as shown by the counterexample. -/
theorem task_id_unique_of_distinct_seconds (ta tb : DateTime) (k1 k2 : String)
    (g1 g2 : Bool) (h1 : ta.Valid) (h2 : tb.Valid) (hne : ta ≠ tb) :
    (start_search [] k1 g1 ta).2 ≠
        (start_search (start_search [] k1 g1 ta).1 k2 g2 tb).2 ∧
      List.lookup (strftimeId ta)
          (start_search (start_search [] k1 g1 ta).1 k2 g2 tb).1 =
        some (initSearchTask k1 g1 ta) ∧
      List.lookup (strftimeId tb)
          (start_search (start_search [] k1 g1 ta).1 k2 g2 tb).1 =
        some (initSearchTask k2 g2 tb) := by
  have hid : strftimeId ta ≠ strftimeId tb := fun h => hne (strftimeId_inj ta tb h1 h2 h)
  have hreg : (start_search (start_search [] k1 g1 ta).1 k2 g2 tb).1 =
      [(strftimeId ta, initSearchTask k1 g1 ta), (strftimeId tb, initSearchTask k2 g2 tb)] := by
    simp only [start_search, assocSet]
    rw [if_neg hid]
  refine ⟨?_, ?_, ?_⟩
  · exact hid
  · rw [hreg]
    simp [List.lookup]
  · rw [hreg]
    have hbeq : (strftimeId tb == strftimeId ta) = false := by
      rw [beq_eq_false_iff_ne]
      exact fun h => hid h.symm
    simp [List.lookup, hbeq]

/-- Witness for the amended C1 at concrete inputs: submissions one second
apart get distinct identities and both registry entries survive. -/
theorem task_id_unique_witness :
    (start_search [] "a" false t0).2 ≠
        (start_search (start_search [] "a" false t0).1 "b" true t1).2 ∧
      List.lookup (strftimeId t0)
          (start_search (start_search [] "a" false t0).1 "b" true t1).1 =
        some (initSearchTask "a" false t0) ∧
      List.lookup (strftimeId t1)
          (start_search (start_search [] "a" false t0).1 "b" true t1).1 =
        some (initSearchTask "b" true t1) :=
  task_id_unique_of_distinct_seconds t0 t1 "a" "b" false true
    (by simp only [DateTime.Valid]; decide) (by simp only [DateTime.Valid]; decide)
    (by decide)

/-! ## Crawl orchestration: `run_crawler` (app.py:156-195)

The effectful steps that can raise an exception reaching the
`except Exception` handler are: `crawler.start()`, `crawler.batch_search(...)`
and the snapshot-file write (`open` / `json.dump`, app.py:184-186).  Their
outcomes are oracles.  `crawler.close()` in the `finally` block does not
touch the task entry and is elided. -/

/-- Outcome of one effectful step: normal return or a raised exception with
its `str(e)`. -/
inductive StepOutcome where
  | ok : StepOutcome
  | throws : String → StepOutcome
deriving DecidableEq

/-- Oracles for one `run_crawler` execution. -/
structure CrawlerRun where
  startOutcome : StepOutcome
  batchOutcome : Except String (List Rec)
  writeOutcome : StepOutcome

/-- `run_crawler(task_id, keywords, ...)` as a transformer of the task's
registry entry (app.py:156-195): update the message while progressing; on
success set status `completed`, message, results, total, progress 100, then
write the snapshot file and record the file reference; any raised exception
reaches the handler, which sets status `failed` and a failure message. -/
def run_crawler (o : CrawlerRun) (task_id : String) (keywords : List String)
    (task : Task) : Task :=
  let task1 := { task with message := "正在启动浏览器..." }
  match o.startOutcome with
  | .throws e => { task1 with status := "failed", message := "爬取失败: " ++ e }
  | .ok =>
    let task2 := { task1 with
      message := "正在搜索 " ++ toString keywords.length ++ " 个关键词..." }
    match o.batchOutcome with
    | .error e => { task2 with status := "failed", message := "爬取失败: " ++ e }
    | .ok results =>
      let task3 := { task2 with
        status := "completed",
        message := "爬取完成，共获取 " ++ toString results.length ++ " 条记录",
        results := results, total := results.length, progress := 100 }
      match o.writeOutcome with
      | .throws e => { task3 with status := "failed", message := "爬取失败: " ++ e }
      | .ok => { task3 with file := some ("results_" ++ task_id ++ ".json") }

/-- **C6 (counterexample).** When the browser start and the batch search
succeed but the snapshot-file write raises (app.py:184-186 sits inside the
`try`), the task transitions to `failed` with the failure message — yet its
stored results are the full crawl results and its total is non-zero,
contrary to the claim that a task that transitions to `failed` always has
an empty stored result sequence and total 0. -/
theorem run_crawler_failed_with_results :
    (run_crawler ⟨.ok, .ok [[("std_code", "X")]], .throws "disk full"⟩ "T" ["kw"]
        (initSearchTask "kw" false t0)).status = "failed" ∧
      (run_crawler ⟨.ok, .ok [[("std_code", "X")]], .throws "disk full"⟩ "T" ["kw"]
        (initSearchTask "kw" false t0)).message = "爬取失败: disk full" ∧
      (run_crawler ⟨.ok, .ok [[("std_code", "X")]], .throws "disk full"⟩ "T" ["kw"]
        (initSearchTask "kw" false t0)).results = [[("std_code", "X")]] ∧
      (run_crawler ⟨.ok, .ok [[("std_code", "X")]], .throws "disk full"⟩ "T" ["kw"]
        (initSearchTask "kw" false t0)).total = 1 :=
  ⟨rfl, rfl, rfl, rfl⟩

/-- **C6 (amended).** When the orchestration raises during the browser
start or during the batch search itself — i.e. before results are stored
into the task — the task transitions to `failed`, its message carries the
failure description, and its stored result sequence stays empty with total
0; only a raise in the snapshot-file write, which happens after a fully
successful crawl stored the results, leaves a `failed` task with the full
(not partial) result set in place. -/
theorem run_crawler_failed_empty (o : CrawlerRun) (tid : String) (kws : List String)
    (task : Task) (hres : task.results = []) (htot : task.total = 0)
    (h : (∃ e, o.startOutcome = .throws e) ∨ (∃ e, o.batchOutcome = .error e)) :
    (run_crawler o tid kws task).status = "failed" ∧
      (∃ e, (run_crawler o tid kws task).message = "爬取失败: " ++ e) ∧
      (run_crawler o tid kws task).results = [] ∧
      (run_crawler o tid kws task).total = 0 := by
  cases hs : o.startOutcome with
  | throws e =>
    refine ⟨?_, ⟨e, ?_⟩, ?_, ?_⟩ <;> simp [run_crawler, hs, hres, htot]
  | ok =>
    cases hb : o.batchOutcome with
    | error e =>
      refine ⟨?_, ⟨e, ?_⟩, ?_, ?_⟩ <;> simp [run_crawler, hs, hb, hres, htot]
    | ok results =>
      rcases h with ⟨e, he⟩ | ⟨e, he⟩
      · rw [hs] at he
        exact absurd he (by simp)
      · rw [hb] at he
        exact absurd he (by simp)

/-- Witness for the amended C6 at a concrete input: the batch search
raises a navigation timeout. -/
theorem run_crawler_failed_empty_witness :
    (run_crawler ⟨.ok, .error "Timeout", .ok⟩ "T" ["kw"]
        (initSearchTask "kw" false t0)).status = "failed" ∧
      (∃ e, (run_crawler ⟨.ok, .error "Timeout", .ok⟩ "T" ["kw"]
        (initSearchTask "kw" false t0)).message = "爬取失败: " ++ e) ∧
      (run_crawler ⟨.ok, .error "Timeout", .ok⟩ "T" ["kw"]
        (initSearchTask "kw" false t0)).results = [] ∧
      (run_crawler ⟨.ok, .error "Timeout", .ok⟩ "T" ["kw"]
        (initSearchTask "kw" false t0)).total = 0 :=
  run_crawler_failed_empty ⟨.ok, .error "Timeout", .ok⟩ "T" ["kw"]
    (initSearchTask "kw" false t0) rfl rfl (Or.inr ⟨"Timeout", rfl⟩)

/-! ## Python string ordering

Python's `sorted` on `str` compares strings lexicographically by code
point; this is that order, kept computable so that concrete exports
evaluate. -/

/-- Code-point lexicographic strict order on character lists. -/
def lexLt : List Char → List Char → Bool
  | [], [] => false
  | [], _ :: _ => true
  | _ :: _, [] => false
  | a :: as, b :: bs => if a < b then true else if b < a then false else lexLt as bs

theorem lexLt_cons_iff (x y : Char) (as bs : List Char) :
    lexLt (x :: as) (y :: bs) = true ↔ x < y ∨ (x = y ∧ lexLt as bs = true) := by
  simp only [lexLt]
  by_cases h1 : x < y
  · simp [h1]
  · rw [if_neg h1]
    by_cases h2 : y < x
    · rw [if_pos h2]
      constructor
      · intro h
        simp at h
      · rintro (h | ⟨rfl, h⟩)
        · exact absurd h h1
        · exact absurd h2 (lt_irrefl x)
    · have hxy : x = y := le_antisymm (not_lt.mp h2) (not_lt.mp h1)
      rw [if_neg h2]
      subst hxy
      simp

theorem lexLt_irrefl : ∀ l, lexLt l l = false := by
  intro l
  induction l with
  | nil => rfl
  | cons a as ih =>
    simp only [lexLt]
    rw [if_neg (lt_irrefl a), if_neg (lt_irrefl a)]
    exact ih

theorem lexLt_trans :
    ∀ a b c, lexLt a b = true → lexLt b c = true → lexLt a c = true := by
  intro a
  induction a with
  | nil =>
    intro b c hab hbc
    cases b with
    | nil => simp [lexLt] at hab
    | cons y bs =>
      cases c with
      | nil => simp [lexLt] at hbc
      | cons z cs => simp [lexLt]
  | cons x as ih =>
    intro b c hab hbc
    cases b with
    | nil => simp [lexLt] at hab
    | cons y bs =>
      cases c with
      | nil => simp [lexLt] at hbc
      | cons z cs =>
        rw [lexLt_cons_iff] at hab hbc ⊢
        rcases hab with hab | ⟨rfl, hab⟩
        · rcases hbc with hbc | ⟨rfl, hbc⟩
          · exact Or.inl (lt_trans hab hbc)
          · exact Or.inl hab
        · rcases hbc with hbc | ⟨rfl, hbc⟩
          · exact Or.inl hbc
          · exact Or.inr ⟨rfl, ih bs cs hab hbc⟩

theorem lexLt_asymm (a b : List Char) (h1 : lexLt a b = true) (h2 : lexLt b a = true) :
    False := by
  have := lexLt_trans a b a h1 h2
  rw [lexLt_irrefl] at this
  exact Bool.false_ne_true this

theorem lexLt_connex :
    ∀ a b, a ≠ b → lexLt a b = true ∨ lexLt b a = true := by
  intro a
  induction a with
  | nil =>
    intro b hne
    cases b with
    | nil => exact absurd rfl hne
    | cons y bs => exact Or.inl (by simp [lexLt])
  | cons x as ih =>
    intro b hne
    cases b with
    | nil => exact Or.inr (by simp [lexLt])
    | cons y bs =>
      rcases lt_trichotomy x y with h | h | h
      · exact Or.inl ((lexLt_cons_iff x y as bs).mpr (Or.inl h))
      · subst h
        have hne' : as ≠ bs := fun he => hne (by rw [he])
        rcases ih bs hne' with h' | h'
        · exact Or.inl ((lexLt_cons_iff x x as bs).mpr (Or.inr ⟨rfl, h'⟩))
        · exact Or.inr ((lexLt_cons_iff x x bs as).mpr (Or.inr ⟨rfl, h'⟩))
      · exact Or.inr ((lexLt_cons_iff y x bs as).mpr (Or.inl h))

/-- `a < b` on Python strings (code-point lexicographic). -/
def strLtB (a b : String) : Bool :=
  lexLt a.data b.data

/-- `a <= b` on Python strings, the order `sorted` produces. -/
def pyStrLe (a b : String) : Prop :=
  strLtB b a = false

/-- Strict version of the Python string order. -/
def pyStrLt (a b : String) : Prop :=
  strLtB a b = true

instance : DecidableRel pyStrLe :=
  fun a b => inferInstanceAs (Decidable (strLtB b a = false))

theorem stringDataInj (a b : String) (h : a.data = b.data) : a = b := by
  cases a
  cases b
  exact congrArg String.mk h

instance : IsTotal String pyStrLe where
  total a b := by
    by_cases h : strLtB b a = false
    · exact Or.inl h
    · refine Or.inr ?_
      rw [pyStrLe]
      by_contra h2
      rw [Bool.not_eq_false] at h h2
      exact lexLt_asymm _ _ h h2

instance : IsTrans String pyStrLe where
  trans a b c hab hbc := by
    rw [pyStrLe, strLtB] at hab hbc ⊢
    by_contra hca
    rw [Bool.not_eq_false] at hca
    by_cases hAB : a.data = b.data
    · rw [← hAB] at hbc
      rw [hbc] at hca
      exact Bool.false_ne_true hca
    · have h1 : lexLt a.data b.data = true := by
        rcases lexLt_connex a.data b.data hAB with h | h
        · exact h
        · rw [hab] at h
          exact absurd h (by simp)
      by_cases hBC : b.data = c.data
      · rw [hBC] at h1
        exact lexLt_asymm _ _ h1 hca
      · have h2 : lexLt b.data c.data = true := by
          rcases lexLt_connex b.data c.data hBC with h | h
          · exact h
          · rw [hbc] at h
            exact absurd h (by simp)
        exact lexLt_asymm _ _ (lexLt_trans _ _ _ h1 h2) hca

theorem pyStrLt_of_le_of_ne (a b : String) (hle : pyStrLe a b) (hne : a ≠ b) :
    pyStrLt a b := by
  rw [pyStrLe, strLtB] at hle
  rw [pyStrLt, strLtB]
  have hd : a.data ≠ b.data := fun h => hne (stringDataInj a b h)
  rcases lexLt_connex a.data b.data hd with h | h
  · exact h
  · rw [hle] at h
    exact absurd h (by simp)

/-! ## Export: `download_results` (app.py:243-289)

File paths are modelled by their file names (the constant `DATA_DIR`
directory component is elided).  The `writes` component records which files
the handler actually wrote, with their contents. -/

/-- An `HTTPException(status_code, detail)`. -/
structure HTTPError where
  code : Nat
  detail : String
deriving DecidableEq

/-- A `FileResponse(filepath, media_type, filename)`. -/
structure FileResp where
  path : String
  media : String
  filename : String
deriving DecidableEq

/-- Contents of a file written by the export handler. -/
inductive FileData where
  | json : List Rec → FileData
  | csv : List String → List (List String) → FileData
deriving DecidableEq

/-- Result of one `GET /api/download/{task_id}` request. -/
structure DownloadOut where
  result : Except HTTPError FileResp
  writes : List (String × FileData)

/-- `sorted(set of all keys of all records)` (app.py:272-275): the header
`csv.DictWriter` is given. -/
def csvFieldnames (results : List Rec) : List String :=
  List.insertionSort pyStrLe ((results.map recKeys).flatten.dedup)

/-- The row `csv.DictWriter` writes for one record: one cell per field
name, `rowdict.get(key, restval)` with the default `restval` rendered as an
empty cell. -/
def csvRow (fieldnames : List String) (r : Rec) : List String :=
  fieldnames.map (fun k => (dictGet r k).getD "")

/-- `GET /api/download/{task_id}?format=...` (app.py:243-289): unknown task
is a 404; a task whose status is not `completed` is a 400; `json` writes
the full result list and returns the file; `csv` writes header and rows
only when the result list is non-empty (`if results:`) but returns the file
response in either case; any other format is a 400. -/
def download_results (reg : Registry) (task_id : String) (format : String) :
    DownloadOut :=
  match List.lookup task_id reg with
  | none => ⟨.error ⟨404, "任务不存在"⟩, []⟩
  | some task =>
    if task.status ≠ "completed" then ⟨.error ⟨400, "任务尚未完成"⟩, []⟩
    else
      let results := task.results
      if format = "json" then
        let filename := "standards_" ++ task_id ++ ".json"
        ⟨.ok ⟨filename, "application/json", filename⟩, [(filename, .json results)]⟩
      else if format = "csv" then
        let filename := "standards_" ++ task_id ++ ".csv"
        ⟨.ok ⟨filename, "text/csv", filename⟩,
          if results.isEmpty then []
          else [(filename,
            .csv (csvFieldnames results) (results.map (csvRow (csvFieldnames results))))]⟩
      else ⟨.error ⟨400, "不支持的格式"⟩, []⟩

theorem csvFieldnames_sorted (results : List Rec) :
    List.Sorted pyStrLt (csvFieldnames results) := by
  have hsle : List.Sorted pyStrLe (csvFieldnames results) :=
    List.sorted_insertionSort pyStrLe _
  have hnodup : (csvFieldnames results).Nodup :=
    (List.perm_insertionSort pyStrLe _).nodup_iff.mpr (List.nodup_dedup _)
  exact (hsle.and hnodup).imp (fun h => pyStrLt_of_le_of_ne _ _ h.1 h.2)

theorem csvFieldnames_mem (results : List Rec) (f : String) :
    f ∈ csvFieldnames results ↔ ∃ r ∈ results, f ∈ recKeys r := by
  rw [csvFieldnames]
  rw [(List.perm_insertionSort pyStrLe _).mem_iff]
  rw [List.mem_dedup, List.mem_flatten]
  constructor
  · rintro ⟨s, hs, hf⟩
    obtain ⟨r, hr, rfl⟩ := List.mem_map.mp hs
    exact ⟨r, hr, hf⟩
  · rintro ⟨r, hr, hf⟩
    exact ⟨recKeys r, List.mem_map.mpr ⟨r, hr, rfl⟩, hf⟩

theorem dictGet_eq_none (r : Rec) (f : String) (h : f ∉ recKeys r) :
    dictGet r f = none := by
  induction r with
  | nil => rfl
  | cons kv rest ih =>
    obtain ⟨k, v⟩ := kv
    rw [recKeys] at h
    simp only [List.map_cons, List.mem_cons, not_or] at h
    have hbeq : (f == k) = false := by
      rw [beq_eq_false_iff_ne]
      exact h.1
    rw [dictGet, List.lookup, hbeq]
    exact ih (by rw [recKeys]; exact h.2)

theorem zip_map_self_mem {α β : Type} (g : α → β) (l : List α) (pr : α × β)
    (h : pr ∈ l.zip (l.map g)) : pr.2 = g pr.1 := by
  induction l with
  | nil => simp at h
  | cons x xs ih =>
    rw [List.map_cons, List.zip_cons_cons, List.mem_cons] at h
    rcases h with h | h
    · rw [h]
    · exact ih h

/-- **C7.** Export is permitted only for completed tasks: a found task whose
status is not `completed` (running or failed alike) yields a 400
precondition failure for every format, while a completed task's csv export
succeeds; and the csv header is the sorted (strict code-point order, hence
duplicate-free) union of all field names observed across all records, with
a record's cell for a header field it lacks left empty. -/
theorem download_export_csv (reg : Registry) (tid : String) (task : Task)
    (hfind : List.lookup tid reg = some task) :
    (task.status ≠ "completed" →
      ∀ fmt, (download_results reg tid fmt).result = .error ⟨400, "任务尚未完成"⟩) ∧
    (task.status = "completed" →
      (download_results reg tid "csv").result =
        .ok ⟨"standards_" ++ tid ++ ".csv", "text/csv", "standards_" ++ tid ++ ".csv"⟩) ∧
    List.Sorted pyStrLt (csvFieldnames task.results) ∧
    (∀ f, f ∈ csvFieldnames task.results ↔ ∃ r ∈ task.results, f ∈ recKeys r) ∧
    (∀ r ∈ task.results,
      ∀ pr ∈ (csvFieldnames task.results).zip (csvRow (csvFieldnames task.results) r),
        pr.1 ∉ recKeys r → pr.2 = "") := by
  refine ⟨?_, ?_, csvFieldnames_sorted task.results, csvFieldnames_mem task.results, ?_⟩
  · intro hne fmt
    simp only [download_results, hfind]
    rw [if_pos hne]
  · intro heq
    simp only [download_results, hfind]
    rw [if_neg (by simp [heq])]
    rw [if_neg (by decide)]
    simp
  · intro r _ pr hpr hmem
    have h := zip_map_self_mem (fun k => (dictGet r k).getD "") _ pr hpr
    rw [h]
    show (dictGet r pr.1).getD "" = ""
    rw [dictGet_eq_none r pr.1 hmem]
    rfl

/-- Two records with differing optional fields, for the C7 witness. -/
def rec1 : Rec := [("a", "1"), ("c", "3")]

/-- Second witness record. -/
def rec2 : Rec := [("a", "4"), ("b", "2")]

/-- A completed task holding `rec1` and `rec2`, for the C7 witness. -/
def completedTask : Task :=
  { status := "completed", progress := 100, message := "m", keyword := "k",
    keywords := ["k"], results := [rec1, rec2], total := 2, created_at := t0,
    get_details := false, file := none }

/-- Witness for C7 at concrete inputs: csv export of a running task is
rejected with a 400; csv export of a completed task with records
`{a, c}` and `{a, b}` succeeds, its header is strictly sorted and contains
the field `b` observed in only one record. -/
theorem download_export_csv_witness :
    (download_results [("R", initSearchTask "k" false t0)] "R" "csv").result =
        .error ⟨400, "任务尚未完成"⟩ ∧
      (download_results [("C", completedTask)] "C" "csv").result =
        .ok ⟨"standards_C.csv", "text/csv", "standards_C.csv"⟩ ∧
      List.Sorted pyStrLt (csvFieldnames completedTask.results) ∧
      "b" ∈ csvFieldnames completedTask.results := by
  have h1 := download_export_csv [("R", initSearchTask "k" false t0)] "R"
    (initSearchTask "k" false t0) rfl
  have h2 := download_export_csv [("C", completedTask)] "C" completedTask rfl
  refine ⟨h1.1 (by decide) "csv", h2.2.1 rfl, h2.2.2.1, ?_⟩
  exact (h2.2.2.2.1 "b").mpr ⟨rec2, by decide, by decide⟩

/-- A completed task with an empty result set, for C10. -/
def emptyResultsTask : Task :=
  { status := "completed", progress := 100, message := "m", keyword := "k",
    keywords := ["k"], results := [], total := 0, created_at := t0,
    get_details := false, file := none }

/-- **C10.** For a completed task with an empty result set, a csv export
writes no file at all — not even a header row — yet still returns a file
response referencing the never-created path, whereas a json export of the
same task writes, and returns, a file containing the empty list. -/
theorem download_empty_results_csv_vs_json :
    (download_results [("T", emptyResultsTask)] "T" "csv").writes = [] ∧
      (download_results [("T", emptyResultsTask)] "T" "csv").result =
        .ok ⟨"standards_T.csv", "text/csv", "standards_T.csv"⟩ ∧
      ((download_results [("T", emptyResultsTask)] "T" "csv").writes.map
        Prod.fst).contains "standards_T.csv" = false ∧
      (download_results [("T", emptyResultsTask)] "T" "json").writes =
        [("standards_T.json", FileData.json [])] ∧
      (download_results [("T", emptyResultsTask)] "T" "json").result =
        .ok ⟨"standards_T.json", "application/json", "standards_T.json"⟩ :=
  ⟨rfl, rfl, rfl, rfl, rfl⟩

end StdCrawler
